import Mathlib

/-!
Verification of the HA failover layer of `libhdfs3`
(`src/server/NamenodeProxy.cpp`): the namenode pool, the shared
current-namenode index with its conditional-advance protocol, and the
retry/failover loop that the `NAMENODE_HA_RETRY_BEGIN/END` macros wrap
around every RPC.

The C++ state (fields of `NamenodeProxy`) is embedded as `ProxyState`;
the machine `uint32_t` counter `currentNamenode` is a `Nat` reduced
modulo `2^32` exactly where the C++ increment may wrap.  Exceptional
exits are explicit constructors; undefined behaviour (the `% 0` in
`failoverToNextNamenode` on a closed pool) is `Option.none`.
-/

namespace NamenodeProxy

/-- Width of `uint32_t`, the type of the `currentNamenode` counter. -/
def uint32Mod : Nat := 2 ^ 32

/-- The mutable fields of `NamenodeProxy` relevant to the failover layer:
the handle pool `namenodes`, the shared index `currentNamenode`
(a `uint32_t`), and the construction-time retry policy.  `H` is the
handle type (`shared_ptr<Namenode>` in the source). -/
structure ProxyState (H : Type) where
  namenodes : List H
  currentNamenode : Nat
  enableNamenodeHA : Bool
  maxNamenodeHARetry : Nat
deriving Repr, DecidableEq

/-- `NamenodeProxy::getActiveNamenode`: under the lock, throw
`HdfsFileSystemClosed` (here `none`) if the pool is empty, otherwise
return the handle at `currentNamenode % size` together with the raw
index value as the caller's snapshot (`oldValue`). -/
def getActiveNamenode [Inhabited H] (s : ProxyState H) : Option (H × Nat) :=
  if s.namenodes.isEmpty then
    none
  else
    some (s.namenodes.getD (s.currentNamenode % s.namenodes.length) default,
          s.currentNamenode)

/-- `NamenodeProxy::failoverToNextNamenode`: under the lock, a no-op when
`oldValue != currentNamenode` (another thread already failed over);
otherwise `++currentNamenode` (a `uint32_t` increment, hence the
`% uint32Mod`) followed by `currentNamenode % namenodes.size()`.  When
the pool is empty that final `%` divides by zero — undefined behaviour,
embedded as `none`. -/
def failoverToNextNamenode (s : ProxyState H) (oldValue : Nat) :
    Option (ProxyState H) :=
  if oldValue ≠ s.currentNamenode then
    some s
  else if s.namenodes.length = 0 then
    none
  else
    some { s with
      currentNamenode :=
        ((s.currentNamenode + 1) % uint32Mod) % s.namenodes.length }

/-- `NamenodeProxy::close`: under the lock, `namenodes.clear()`. -/
def close (s : ProxyState H) : ProxyState H :=
  { s with namenodes := [] }

end NamenodeProxy

namespace NamenodeProxy

/-- Result of one execution of the caller-supplied work (the RPC body
between the two macros), as classified by the `catch` clauses:
success, `NameNodeStandbyException`, `HdfsFailoverException` (whose
nested cause may be absent), or any other exception (identified by a
code `e`). -/
inductive WorkResult (α : Type) where
  | ok (a : α)
  | standby
  | failover (cause : Option Nat)
  | other (e : Nat)
deriving Repr, DecidableEq

/-- How one proxy call terminates: a result, or one of the exceptional
exits of the macro-expanded loop.  `closedError` is
`HdfsFileSystemClosed` from `getActiveNamenode`; `standbyError` is the
rethrown `NameNodeStandbyException`; `rpcError c` is the
`HdfsRpcException` that `HandleHdfsFailoverException` nests around the
cause `c`; `abortExit` is the `abort()` it reaches when the
`HdfsFailoverException` has no nested cause; `otherError e` is an
uncaught exception; `undef` is undefined behaviour (never reached by a
sequential `invoke`). -/
inductive InvokeResult (α : Type) where
  | ok (a : α)
  | closedError
  | standbyError
  | rpcError (cause : Nat)
  | abortExit
  | otherError (e : Nat)
  | undef
deriving Repr, DecidableEq

/-- Observable outcome of one proxy call: the result, how many times the
work was executed, how many failover advances were performed, and the
final state. -/
structure InvokeTrace (H : Type) (α : Type) where
  result : InvokeResult α
  execs : Nat
  advances : Nat
  final : ProxyState H
deriving Repr, DecidableEq

/-- `HandleHdfsFailoverException`: rethrow the nested cause if present and
wrap it in an `HdfsRpcException` (`NESTED_THROW`); with no nested cause
control falls through to `abort()`. -/
def handleHdfsFailoverException (cause : Option Nat) : InvokeResult α :=
  match cause with
  | some c => .rpcError c
  | none => .abortExit

/-- The loop of `NAMENODE_HA_RETRY_BEGIN/END`, macro-expanded.  `ha` and
`maxRetry` are the (immutable) fields `enableNamenodeHA` and
`maxNamenodeHARetry`; `count` is the local `__count`; the work `w` is
indexed by the number of executions so far so that successive attempts
may behave differently.  Each iteration reads `(handle, __oldValue)`
from `getActiveNamenode`, runs the work, and on a retryable failure
tests `__count++ > maxNamenodeHARetry` (old value compared, then
incremented) before `failoverToNextNamenode(__oldValue)`. -/
def invokeLoop [Inhabited H] (ha : Bool) (maxRetry : Nat)
    (w : Nat → H → WorkResult α) (count execs advances : Nat)
    (s : ProxyState H) : InvokeTrace H α :=
  match getActiveNamenode s with
  | none => ⟨.closedError, execs, advances, s⟩
  | some (handle, oldValue) =>
    match w execs handle with
    | .ok a => ⟨.ok a, execs + 1, advances, s⟩
    | .standby =>
      if ¬ ha ∨ count > maxRetry then
        ⟨.standbyError, execs + 1, advances, s⟩
      else
        match failoverToNextNamenode s oldValue with
        | none => ⟨.undef, execs + 1, advances, s⟩
        | some s' => invokeLoop ha maxRetry w (count + 1) (execs + 1)
            (advances + 1) s'
    | .failover cause =>
      if ¬ ha ∨ count > maxRetry then
        ⟨handleHdfsFailoverException cause, execs + 1, advances, s⟩
      else
        match failoverToNextNamenode s oldValue with
        | none => ⟨.undef, execs + 1, advances, s⟩
        | some s' => invokeLoop ha maxRetry w (count + 1) (execs + 1)
            (advances + 1) s'
    | .other e => ⟨.otherError e, execs + 1, advances, s⟩
termination_by maxRetry + 1 - count
decreasing_by
  all_goals
    simp only [not_or, not_lt, Classical.not_not] at *
    omega

/-- One proxy call: the macro pair around a work body, starting from
`__count = 0`. -/
def invoke [Inhabited H] (w : Nat → H → WorkResult α) (s : ProxyState H) :
    InvokeTrace H α :=
  invokeLoop s.enableNamenodeHA s.maxNamenodeHARetry w 0 0 0 s

/-- Construction input: a `NamenodeInfo` contributes its RPC address
string (`getRpcAddr`). -/
structure NamenodeInfo where
  rpcAddr : String
deriving Repr, DecidableEq

/-- The handle the constructor builds per descriptor:
`NamenodeImpl(host, port, ...)`; only the host/port identity matters to
this layer. -/
structure NamenodeImpl where
  host : String
  port : String
deriving Repr, DecidableEq, Inhabited

/-- Modelled from the spec: character-level splitting on a separator,
supporting `StringSplit` below. -/
def splitOnChar (sep : Char) : List Char → List (List Char)
  | [] => [[]]
  | c :: rest =>
    let r := splitOnChar sep rest
    if c = sep then
      [] :: r
    else
      match r with
      | [] => [[c]]
      | g :: gs => (c :: g) :: gs

/-- Modelled from the spec: `StringUtil.h`'s `StringSplit` is not under
`src/`; the spec says each address is split on `":"` into host/port
parts, embedded as splitting the character sequence on the separator. -/
def StringSplit (str : String) (sep : Char) : List String :=
  (splitOnChar sep str.data).map (fun cs => String.mk cs)

/-- `std::swap(a[i], a[j])` on a list: position `i` receives the old
element at `j` and vice versa (no-ops outside the range, which the
shuffle never hits). -/
def listSwap [Inhabited α] (l : List α) (i j : Nat) : List α :=
  (l.set i (l.getD j default)).set j (l.getD i default)

/-- Modelled from the spec: `std::shuffle` (C++ standard library, outside
this repository) applies a random permutation; embedded as the
Fisher-Yates loop `for i = n-1 downto 1: swap(a[i], a[rand i mod (i+1)])`
with the engine abstracted to the oracle `rand`. -/
def fisherYatesAux [Inhabited α] (rand : Nat → Nat) : Nat → List α → List α
  | 0, l => l
  | i + 1, l => fisherYatesAux rand i (listSwap l (i + 1) (rand (i + 1) % (i + 2)))

/-- Modelled from the spec: entry point of the shuffle; an empty or
singleton sequence is returned unchanged, matching `std::shuffle`. -/
def fisherYates [Inhabited α] (rand : Nat → Nat) (l : List α) : List α :=
  match l.length with
  | 0 => l
  | n + 1 => fisherYatesAux rand n l

/-- The constructor's handle-building loop: for each descriptor, split
the address; if it does not yield exactly host and port, throw
`InvalidParameter` (carrying the offending address), else build one
`NamenodeImpl`. -/
def buildNamenodes : List NamenodeInfo → Except String (List NamenodeImpl)
  | [] => .ok []
  | info :: rest =>
    let nninfo := StringSplit info.rpcAddr ':'
    if nninfo.length ≠ 2 then
      .error info.rpcAddr
    else
      match buildNamenodes rest with
      | .ok hs => .ok (⟨nninfo.getD 0 default, nninfo.getD 1 default⟩ :: hs)
      | .error e => .error e

/-- `NamenodeProxy::NamenodeProxy`: `size == 1` disables HA and forces
`maxNamenodeHARetry = 0`; any other size (including `0`) enables HA and
takes the configured `rpcMaxHaRetry`.  Then the handles are built (one
per descriptor, failing on an unsplittable address) and shuffled with a
time-seeded engine, abstracted as `rand`.  `currentNamenode` starts
at `0`. -/
def mkNamenodeProxy (infos : List NamenodeInfo) (rpcMaxHaRetry : Nat)
    (rand : Nat → Nat) : Except String (ProxyState NamenodeImpl) :=
  let enableHA : Bool := infos.length != 1
  let maxR : Nat := if infos.length = 1 then 0 else rpcMaxHaRetry
  match buildNamenodes infos with
  | .error e => .error e
  | .ok hs =>
    .ok { namenodes := fisherYates rand hs,
          currentNamenode := 0,
          enableNamenodeHA := enableHA,
          maxNamenodeHARetry := maxR }

/-- The handle a caller currently reads: position
`currentNamenode % size` of the pool. -/
def currentHandle [Inhabited H] (s : ProxyState H) : H :=
  s.namenodes.getD (s.currentNamenode % s.namenodes.length) default

theorem getActiveNamenode_of_ne_nil [Inhabited H] (s : ProxyState H)
    (h : s.namenodes ≠ []) :
    getActiveNamenode s = some (currentHandle s, s.currentNamenode) := by
  simp [getActiveNamenode, currentHandle, h]

/-- The `uint32_t` wrap in the increment is invisible whenever
`currentNamenode < size ≤ 2^32`, the invariant every reachable state
satisfies. -/
theorem failover_wrap_eq (c n : Nat) (hc : c < n) (hn : n ≤ uint32Mod) :
    ((c + 1) % uint32Mod) % n = (c + 1) % n := by
  rcases Nat.lt_or_ge (c + 1) uint32Mod with h | h
  · rw [Nat.mod_eq_of_lt h]
  · have h1 : c + 1 = uint32Mod := by omega
    have h2 : n = uint32Mod := by omega
    simp [h1, h2]

theorem failoverToNextNamenode_of_current (s : ProxyState H)
    (hinv : s.currentNamenode < s.namenodes.length)
    (hlen : s.namenodes.length ≤ uint32Mod) :
    failoverToNextNamenode s s.currentNamenode =
      some { s with currentNamenode :=
               (s.currentNamenode + 1) % s.namenodes.length } := by
  have hlen0 : ¬ s.namenodes.length = 0 := by omega
  simp [failoverToNextNamenode, hlen0, failover_wrap_eq _ _ hinv hlen]

/-- C3: `advanceIfCurrent` (`failoverToNextNamenode`) is a no-op on a
stale snapshot, advances `index` to `(index + 1) mod size` on a current
one, and is idempotent: a second call with the same snapshot (pool size
at least 2) changes nothing, so two calls advance by exactly one. -/
theorem advanceIfCurrent_spec (s : ProxyState H) (snap : Nat)
    (hinv : s.currentNamenode < s.namenodes.length)
    (hlen : s.namenodes.length ≤ uint32Mod) :
    (snap ≠ s.currentNamenode → failoverToNextNamenode s snap = some s) ∧
    (snap = s.currentNamenode →
      failoverToNextNamenode s snap =
        some { s with currentNamenode :=
                 (s.currentNamenode + 1) % s.namenodes.length }) ∧
    (2 ≤ s.namenodes.length →
      (failoverToNextNamenode s snap).bind
          (fun t => failoverToNextNamenode t snap) =
        failoverToNextNamenode s snap) := by
  refine ⟨?_, ?_, ?_⟩
  · intro hne
    simp [failoverToNextNamenode, hne]
  · intro heq
    subst heq
    exact failoverToNextNamenode_of_current s hinv hlen
  · intro h2
    by_cases heq : snap = s.currentNamenode
    · subst heq
      rw [failoverToNextNamenode_of_current s hinv hlen]
      have hne2 : s.currentNamenode ≠
          (s.currentNamenode + 1) % s.namenodes.length := by
        rcases Nat.lt_or_ge (s.currentNamenode + 1) s.namenodes.length with hl | hl
        · rw [Nat.mod_eq_of_lt hl]; omega
        · have hl2 : s.currentNamenode + 1 = s.namenodes.length := by omega
          rw [hl2, Nat.mod_self]; omega
      simp [failoverToNextNamenode, hne2]
    · have hstep : failoverToNextNamenode s snap = some s := by
        simp [failoverToNextNamenode, heq]
      rw [hstep]
      simp [failoverToNextNamenode, heq]

/-- Witness for C3 at a concrete two-endpoint pool with a current
snapshot. -/
theorem advanceIfCurrent_spec_witness :
    ((⟨[10, 20], 0, true, 1⟩ : ProxyState Nat).currentNamenode <
        (⟨[10, 20], 0, true, 1⟩ : ProxyState Nat).namenodes.length ∧
      (⟨[10, 20], 0, true, 1⟩ : ProxyState Nat).namenodes.length ≤ uint32Mod) ∧
    ((0 ≠ (⟨[10, 20], 0, true, 1⟩ : ProxyState Nat).currentNamenode →
        failoverToNextNamenode (⟨[10, 20], 0, true, 1⟩ : ProxyState Nat) 0 =
          some ⟨[10, 20], 0, true, 1⟩) ∧
      (0 = (⟨[10, 20], 0, true, 1⟩ : ProxyState Nat).currentNamenode →
        failoverToNextNamenode (⟨[10, 20], 0, true, 1⟩ : ProxyState Nat) 0 =
          some { (⟨[10, 20], 0, true, 1⟩ : ProxyState Nat) with
                   currentNamenode :=
                     ((⟨[10, 20], 0, true, 1⟩ : ProxyState Nat).currentNamenode + 1) %
                       (⟨[10, 20], 0, true, 1⟩ : ProxyState Nat).namenodes.length }) ∧
      (2 ≤ (⟨[10, 20], 0, true, 1⟩ : ProxyState Nat).namenodes.length →
        (failoverToNextNamenode (⟨[10, 20], 0, true, 1⟩ : ProxyState Nat) 0).bind
            (fun t => failoverToNextNamenode t 0) =
          failoverToNextNamenode (⟨[10, 20], 0, true, 1⟩ : ProxyState Nat) 0)) :=
  ⟨⟨by decide, by decide⟩,
    advanceIfCurrent_spec (⟨[10, 20], 0, true, 1⟩ : ProxyState Nat) 0
      (by decide) (by decide)⟩

/-- C5: once the pool is closed (`namenodes` cleared),
`failoverToNextNamenode` called with the still-current snapshot reaches
`currentNamenode % namenodes.size()` with size `0` — modulo by zero,
undefined behaviour (`none`) — because, unlike `getActiveNamenode`, it
performs no emptiness check. -/
theorem advanceIfCurrent_closed_not_total [Inhabited H] (s : ProxyState H) :
    failoverToNextNamenode (close s) (close s).currentNamenode = none ∧
    getActiveNamenode (close s) = none := by
  constructor
  · simp [failoverToNextNamenode, close]
  · simp [getActiveNamenode, close]

/-- C6: `close` clears the pool and is idempotent; after a close,
`getActiveNamenode` fails with `HdfsFileSystemClosed`, and that error
propagates out of the retry loop at once — zero work executions, zero
failovers, no retry. -/
theorem close_idempotent_closedError [Inhabited H] (s : ProxyState H)
    (w : Nat → H → WorkResult α) :
    close (close s) = close s ∧
    getActiveNamenode (close s) = none ∧
    invoke w (close s) = ⟨.closedError, 0, 0, close s⟩ := by
  refine ⟨rfl, by simp [getActiveNamenode, close], ?_⟩
  rw [invoke, invokeLoop]
  simp [getActiveNamenode, close]

theorem failoverToNextNamenode_some_of_ne_nil (s : ProxyState H) (old : Nat)
    (hne : s.namenodes ≠ []) :
    ∃ s', failoverToNextNamenode s old = some s' ∧
      s'.namenodes = s.namenodes := by
  by_cases h : old ≠ s.currentNamenode
  · exact ⟨s, by simp [failoverToNextNamenode, h], rfl⟩
  · have hlen : ¬ s.namenodes.length = 0 := by
      simpa [List.length_eq_zero] using hne
    refine ⟨{ s with currentNamenode :=
        ((s.currentNamenode + 1) % uint32Mod) % s.namenodes.length }, ?_, rfl⟩
    simp [failoverToNextNamenode, h, hlen]

theorem invokeLoop_all_standby [Inhabited H] (R : Nat) :
    ∀ (k count execs advances : Nat) (s : ProxyState H),
      s.namenodes ≠ [] → R + 1 = count + k →
      ∃ s', s'.namenodes = s.namenodes ∧
        invokeLoop true R (fun _ _ => WorkResult.standby (α := α))
            count execs advances s =
          ⟨.standbyError, execs + (k + 1), advances + k, s'⟩ := by
  intro k
  induction k with
  | zero =>
    intro count execs advances s hne hk
    refine ⟨s, rfl, ?_⟩
    rw [invokeLoop, getActiveNamenode_of_ne_nil s hne]
    have hc : count > R := by omega
    simp [hc]
  | succ k ih =>
    intro count execs advances s hne hk
    obtain ⟨s', hst, hs'⟩ :=
      failoverToNextNamenode_some_of_ne_nil s s.currentNamenode hne
    obtain ⟨s'', hmem, hloop⟩ := ih (count + 1) (execs + 1) (advances + 1) s'
      (by rw [hs']; exact hne) (by omega)
    refine ⟨s'', by rw [hmem, hs'], ?_⟩
    rw [invokeLoop, getActiveNamenode_of_ne_nil s hne]
    have hc : ¬ count > R := by omega
    simp only [hc, Bool.not_true, false_or, if_false, hst]
    rw [hloop]
    have h1 : execs + 1 + (k + 1) = execs + (k + 1 + 1) := by omega
    have h2 : advances + 1 + k = advances + (k + 1) := by omega
    rw [h1, h2]
    simp

/-- C1: with HA enabled and every attempt failing with
`NameNodeStandbyException`, the loop executes the work exactly
`maxNamenodeHARetry + 2` times, performs `maxNamenodeHARetry + 1`
failovers, and rethrows the standby exception unchanged (the check is
`__count++ > maxNamenodeHARetry`: old value compared, then
incremented). -/
theorem invoke_all_standby_bounded [Inhabited H] (R : Nat) (s : ProxyState H)
    (hne : s.namenodes ≠ []) (hha : s.enableNamenodeHA = true)
    (hR : s.maxNamenodeHARetry = R) :
    (invoke (fun _ _ => WorkResult.standby (α := Unit)) s).result =
        .standbyError ∧
    (invoke (fun _ _ => WorkResult.standby (α := Unit)) s).execs = R + 2 ∧
    (invoke (fun _ _ => WorkResult.standby (α := Unit)) s).advances = R + 1 := by
  obtain ⟨s', hmem, hloop⟩ :=
    invokeLoop_all_standby (α := Unit) R (R + 1) 0 0 0 s hne (by omega)
  rw [invoke, hha, hR, hloop]
  refine ⟨rfl, ?_, ?_⟩
  · show 0 + (R + 1 + 1) = R + 2
    omega
  · show 0 + (R + 1) = R + 1
    omega

/-- Witness for C1: three endpoints, `maxNamenodeHARetry = 1`, every
attempt standby: 3 executions, 2 failovers. -/
theorem invoke_all_standby_bounded_witness :
    ((⟨[10, 20, 30], 0, true, 1⟩ : ProxyState Nat).namenodes ≠ [] ∧
      (⟨[10, 20, 30], 0, true, 1⟩ : ProxyState Nat).enableNamenodeHA = true ∧
      (⟨[10, 20, 30], 0, true, 1⟩ : ProxyState Nat).maxNamenodeHARetry = 1) ∧
    (invoke (fun _ _ => WorkResult.standby (α := Unit))
        (⟨[10, 20, 30], 0, true, 1⟩ : ProxyState Nat)).result = .standbyError ∧
    (invoke (fun _ _ => WorkResult.standby (α := Unit))
        (⟨[10, 20, 30], 0, true, 1⟩ : ProxyState Nat)).execs = 1 + 2 ∧
    (invoke (fun _ _ => WorkResult.standby (α := Unit))
        (⟨[10, 20, 30], 0, true, 1⟩ : ProxyState Nat)).advances = 1 + 1 :=
  ⟨⟨by decide, rfl, rfl⟩,
    invoke_all_standby_bounded 1 (⟨[10, 20, 30], 0, true, 1⟩ : ProxyState Nat)
      (by decide) rfl rfl⟩

theorem invokeLoop_all_failover [Inhabited H] (R : Nat) (cause : Option Nat) :
    ∀ (k count execs advances : Nat) (s : ProxyState H),
      s.namenodes ≠ [] → R + 1 = count + k →
      ∃ s', s'.namenodes = s.namenodes ∧
        invokeLoop true R (fun _ _ => WorkResult.failover (α := α) cause)
            count execs advances s =
          ⟨handleHdfsFailoverException cause, execs + (k + 1), advances + k, s'⟩ := by
  intro k
  induction k with
  | zero =>
    intro count execs advances s hne hk
    refine ⟨s, rfl, ?_⟩
    rw [invokeLoop, getActiveNamenode_of_ne_nil s hne]
    have hc : count > R := by omega
    simp [hc]
  | succ k ih =>
    intro count execs advances s hne hk
    obtain ⟨s', hst, hs'⟩ :=
      failoverToNextNamenode_some_of_ne_nil s s.currentNamenode hne
    obtain ⟨s'', hmem, hloop⟩ := ih (count + 1) (execs + 1) (advances + 1) s'
      (by rw [hs']; exact hne) (by omega)
    refine ⟨s'', by rw [hmem, hs'], ?_⟩
    rw [invokeLoop, getActiveNamenode_of_ne_nil s hne]
    have hc : ¬ count > R := by omega
    simp only [hc, Bool.not_true, false_or, if_false, hst]
    rw [hloop]
    have h1 : execs + 1 + (k + 1) = execs + (k + 1 + 1) := by omega
    have h2 : advances + 1 + k = advances + (k + 1) := by omega
    rw [h1, h2]
    simp

/-- C2, amended: once the budget is exhausted (or HA is disabled),
an `HdfsFailoverException` is handed to `HandleHdfsFailoverException`,
which rethrows a present nested cause inside an `HdfsRpcException`;
with the cause absent it falls through to `abort()` — not an
exception. -/
theorem invoke_failover_exhaustion [Inhabited H] (R : Nat) (s : ProxyState H)
    (cause : Option Nat) (hne : s.namenodes ≠ [])
    (hR : s.maxNamenodeHARetry = R) :
    (s.enableNamenodeHA = true →
      ∃ s', invoke (fun _ _ => WorkResult.failover (α := Unit) cause) s =
        ⟨handleHdfsFailoverException cause, R + 2, R + 1, s'⟩) ∧
    (s.enableNamenodeHA = false →
      invoke (fun _ _ => WorkResult.failover (α := Unit) cause) s =
        ⟨handleHdfsFailoverException cause, 1, 0, s⟩) ∧
    (∀ c, handleHdfsFailoverException (α := Unit) (some c) = .rpcError c) ∧
    handleHdfsFailoverException (α := Unit) none = .abortExit := by
  refine ⟨?_, ?_, fun c => rfl, rfl⟩
  · intro hha
    obtain ⟨s', _, hloop⟩ :=
      invokeLoop_all_failover (α := Unit) R cause (R + 1) 0 0 0 s hne (by omega)
    refine ⟨s', ?_⟩
    rw [invoke, hha, hR, hloop]
    have h1 : 0 + (R + 1 + 1) = R + 2 := by omega
    have h2 : 0 + (R + 1) = R + 1 := by omega
    rw [h1, h2]
  · intro hha
    rw [invoke, hha, invokeLoop, getActiveNamenode_of_ne_nil s hne]
    simp

/-- Witness for C2 (amended): two endpoints, budget `0`, a cause-carrying
failure translates to `rpcError`; a cause-less one exits via `abort`. -/
theorem invoke_failover_exhaustion_witness :
    ((⟨[10, 20], 0, true, 0⟩ : ProxyState Nat).namenodes ≠ [] ∧
      (⟨[10, 20], 0, true, 0⟩ : ProxyState Nat).maxNamenodeHARetry = 0) ∧
    ((⟨[10, 20], 0, true, 0⟩ : ProxyState Nat).enableNamenodeHA = true →
      ∃ s', invoke (fun _ _ => WorkResult.failover (α := Unit) (some 7))
          (⟨[10, 20], 0, true, 0⟩ : ProxyState Nat) =
        ⟨handleHdfsFailoverException (some 7), 0 + 2, 0 + 1, s'⟩) :=
  ⟨⟨by decide, rfl⟩,
    (invoke_failover_exhaustion 0 (⟨[10, 20], 0, true, 0⟩ : ProxyState Nat)
      (some 7) (by decide) rfl).1⟩

/-- C2 counterexample: `maxNamenodeHARetry = 0`, HA enabled, every
attempt an `HdfsFailoverException` with **no** nested cause — the run
ends in `abort()` (`abortExit`), not in a raised `HdfsRpcException`,
so the invocation does terminate by an exit other than the translated
failure. -/
theorem failover_absent_cause_abort_counterexample :
    invoke (fun _ _ => WorkResult.failover (α := Unit) none)
        (⟨[10, 20], 0, true, 0⟩ : ProxyState Nat) =
      ⟨.abortExit, 2, 1, ⟨[10, 20], 1, true, 0⟩⟩ := by
  simp [invoke, invokeLoop, getActiveNamenode, failoverToNextNamenode,
        handleHdfsFailoverException, uint32Mod]

/-- C4 counterexample: with HA disabled (single-endpoint pool), an
`HdfsFailoverException` carrying cause `7` does not propagate in its
original shape on the first occurrence: the loop exits with the
translated `HdfsRpcException` around `7`. -/
theorem haDisabled_failover_translated_counterexample :
    invoke (fun _ _ => WorkResult.failover (α := Unit) (some 7))
        (⟨[10], 0, false, 0⟩ : ProxyState Nat) =
      ⟨.rpcError 7, 1, 0, ⟨[10], 0, false, 0⟩⟩ := by
  simp [invoke, invokeLoop, getActiveNamenode, handleHdfsFailoverException]

/-- C4, amended: with HA disabled, the first `NameNodeStandbyException`
rethrows unchanged, and the first `HdfsFailoverException` exits through
`HandleHdfsFailoverException` (translated `HdfsRpcException` when its
cause is present, `abort()` when absent); in every case the work runs
exactly once, with no failover advance and no retry, the state left
unchanged. -/
theorem invoke_haDisabled_first_failure [Inhabited H] (s : ProxyState H)
    (w : Nat → H → WorkResult α)
    (hha : s.enableNamenodeHA = false) (hne : s.namenodes ≠ []) :
    (w 0 (currentHandle s) = .standby →
      invoke w s = ⟨.standbyError, 1, 0, s⟩) ∧
    (∀ c, w 0 (currentHandle s) = .failover (some c) →
      invoke w s = ⟨.rpcError c, 1, 0, s⟩) ∧
    (w 0 (currentHandle s) = .failover none →
      invoke w s = ⟨.abortExit, 1, 0, s⟩) := by
  refine ⟨?_, ?_, ?_⟩
  · intro hw
    rw [invoke, hha, invokeLoop, getActiveNamenode_of_ne_nil s hne]
    simp [hw]
  · intro c hw
    rw [invoke, hha, invokeLoop, getActiveNamenode_of_ne_nil s hne]
    simp [hw, handleHdfsFailoverException]
  · intro hw
    rw [invoke, hha, invokeLoop, getActiveNamenode_of_ne_nil s hne]
    simp [hw, handleHdfsFailoverException]

/-- Witness for C4 (amended) on a one-endpoint pool. -/
theorem invoke_haDisabled_first_failure_witness :
    ((⟨[10], 0, false, 0⟩ : ProxyState Nat).enableNamenodeHA = false ∧
      (⟨[10], 0, false, 0⟩ : ProxyState Nat).namenodes ≠ []) ∧
    ((fun (_ : Nat) (_ : Nat) => WorkResult.standby (α := Unit)) 0
        (currentHandle (⟨[10], 0, false, 0⟩ : ProxyState Nat)) = .standby →
      invoke (fun _ _ => WorkResult.standby (α := Unit))
          (⟨[10], 0, false, 0⟩ : ProxyState Nat) =
        ⟨.standbyError, 1, 0, ⟨[10], 0, false, 0⟩⟩) :=
  ⟨⟨rfl, by decide⟩,
    (invoke_haDisabled_first_failure (⟨[10], 0, false, 0⟩ : ProxyState Nat)
      (fun _ _ => WorkResult.standby (α := Unit)) rfl (by decide)).1⟩

/-- C9: any exception that is neither `NameNodeStandbyException` nor
`HdfsFailoverException` is not caught: whatever the attempt at which it
is raised (any `__count`, any prior executions/advances, any state), the
loop exits with it at once — one more execution, zero further failover
advances, state unchanged. -/
theorem invokeLoop_other_passthrough [Inhabited H] (ha : Bool)
    (maxRetry count execs advances : Nat) (s : ProxyState H)
    (w : Nat → H → WorkResult α) (e : Nat)
    (hne : s.namenodes ≠ [])
    (hw : w execs (currentHandle s) = .other e) :
    invokeLoop ha maxRetry w count execs advances s =
      ⟨.otherError e, execs + 1, advances, s⟩ := by
  rw [invokeLoop, getActiveNamenode_of_ne_nil s hne]
  simp [hw]

/-- Witness for C9 at a concrete mid-loop configuration. -/
theorem invokeLoop_other_passthrough_witness :
    ((⟨[10, 20], 1, true, 5⟩ : ProxyState Nat).namenodes ≠ [] ∧
      (fun (_ : Nat) (_ : Nat) => WorkResult.other (α := Unit) 9) 3
        (currentHandle (⟨[10, 20], 1, true, 5⟩ : ProxyState Nat)) = .other 9) ∧
    invokeLoop true 5 (fun _ _ => WorkResult.other (α := Unit) 9) 2 3 1
        (⟨[10, 20], 1, true, 5⟩ : ProxyState Nat) =
      ⟨.otherError 9, 3 + 1, 1, ⟨[10, 20], 1, true, 5⟩⟩ :=
  ⟨⟨by decide, rfl⟩,
    invokeLoop_other_passthrough true 5 2 3 1
      (⟨[10, 20], 1, true, 5⟩ : ProxyState Nat)
      (fun _ _ => WorkResult.other (α := Unit) 9) 9 (by decide) rfl⟩

/-- C8: `maxNamenodeHARetry = 2`, three endpoints, the two endpoints at
positions `i` and `(i+1) mod 3` fail with `HdfsFailoverException` and
the one at `(i+2) mod 3` succeeds: `invoke` returns that endpoint's
result and the index ends at its position, having advanced by exactly
two modulo three. -/
theorem invoke_success_after_partial_failover (i : Nat) (hi : i < 3) :
    invoke (fun _ h => if h = (i + 2) % 3 then WorkResult.ok (100 + h)
                       else WorkResult.failover (some 0))
        (⟨[0, 1, 2], i, true, 2⟩ : ProxyState Nat) =
      ⟨.ok (100 + (i + 2) % 3), 3, 2, ⟨[0, 1, 2], (i + 2) % 3, true, 2⟩⟩ := by
  interval_cases i <;>
    simp [invoke, invokeLoop, getActiveNamenode, failoverToNextNamenode,
          handleHdfsFailoverException, uint32Mod, currentHandle]

/-- Witness for C8 starting at index `0`. -/
theorem invoke_success_after_partial_failover_witness :
    0 < 3 ∧
    invoke (fun _ h => if h = (0 + 2) % 3 then WorkResult.ok (100 + h)
                       else WorkResult.failover (some 0))
        (⟨[0, 1, 2], 0, true, 2⟩ : ProxyState Nat) =
      ⟨.ok (100 + (0 + 2) % 3), 3, 2, ⟨[0, 1, 2], (0 + 2) % 3, true, 2⟩⟩ :=
  ⟨by decide, invoke_success_after_partial_failover 0 (by decide)⟩

theorem count_set_add [DecidableEq α] [Inhabited α] :
    ∀ (l : List α) (i : Nat), i < l.length → ∀ (x a : α),
      (l.set i x).count a + (if l.getD i default = a then 1 else 0) =
        l.count a + (if x = a then 1 else 0)
  | [], i, hi, x, a => by simp at hi
  | b :: t, 0, _, x, a => by
      simp only [List.set_cons_zero, List.getD_cons_zero, List.count_cons]
      split_ifs <;> simp_all
  | b :: t, i + 1, hi, x, a => by
      have hi' : i < t.length := by simpa using hi
      have ihh := count_set_add t i hi' x a
      simp only [List.set_cons_succ, List.getD_cons_succ, List.count_cons]
      split_ifs at ihh ⊢ <;> simp_all

theorem getD_set_ne [Inhabited α] :
    ∀ (l : List α) (i j : Nat), i ≠ j → ∀ (x : α),
      (l.set i x).getD j default = l.getD j default
  | [], _, _, _, _ => by simp
  | _ :: _, 0, 0, h, _ => absurd rfl h
  | _ :: _, 0, _ + 1, _, _ => by
      simp [List.set_cons_zero, List.getD_cons_succ]
  | _ :: _, _ + 1, 0, _, _ => by
      simp [List.set_cons_succ, List.getD_cons_zero]
  | b :: t, i + 1, j + 1, h, x => by
      simp only [List.set_cons_succ, List.getD_cons_succ]
      exact getD_set_ne t i j (by omega) x

theorem listSwap_length [Inhabited α] (l : List α) (i j : Nat) :
    (listSwap l i j).length = l.length := by
  simp [listSwap, List.length_set]

/-- One `std::swap` step keeps the multiset of elements. -/
theorem listSwap_perm [DecidableEq α] [Inhabited α] (l : List α) (i j : Nat)
    (hi : i < l.length) (hj : j < l.length) : (listSwap l i j).Perm l := by
  rw [List.perm_iff_count]
  intro a
  by_cases hij : i = j
  · subst hij
    rw [listSwap, List.set_set]
    have h := count_set_add l i hi (l.getD i default) a
    split_ifs at h <;> omega
  · rw [listSwap]
    have h1 := count_set_add l i hi (l.getD j default) a
    have hlen : j < (l.set i (l.getD j default)).length := by
      simpa [List.length_set] using hj
    have h2 := count_set_add (l.set i (l.getD j default)) j hlen
      (l.getD i default) a
    rw [getD_set_ne l i j hij (l.getD j default)] at h2
    split_ifs at h1 h2 <;> omega

theorem fisherYatesAux_perm [DecidableEq α] [Inhabited α] (rand : Nat → Nat) :
    ∀ (i : Nat) (l : List α), i < l.length → (fisherYatesAux rand i l).Perm l
  | 0, l, _ => List.Perm.refl l
  | i + 1, l, hi => by
      rw [fisherYatesAux]
      have hj : rand (i + 1) % (i + 2) < l.length := by
        have := Nat.mod_lt (rand (i + 1)) (y := i + 2) (by omega)
        omega
      have hswap := listSwap_perm l (i + 1) (rand (i + 1) % (i + 2)) hi hj
      have hlen : i < (listSwap l (i + 1) (rand (i + 1) % (i + 2))).length := by
        rw [listSwap_length]
        omega
      exact (fisherYatesAux_perm rand i _ hlen).trans hswap

/-- The modelled `std::shuffle` only reorders: its output is a
permutation of its input, whatever the random engine produced. -/
theorem fisherYates_perm [DecidableEq α] [Inhabited α] (rand : Nat → Nat)
    (l : List α) : (fisherYates rand l).Perm l := by
  rw [fisherYates]
  split
  · exact List.Perm.refl l
  · next n heq => exact fisherYatesAux_perm rand n l (by omega)

theorem buildNamenodes_ok_length :
    ∀ (infos : List NamenodeInfo) (hs : List NamenodeImpl),
      buildNamenodes infos = .ok hs → hs.length = infos.length
  | [], hs, h => by
      simp only [buildNamenodes] at h
      cases h
      rfl
  | info :: rest, hs, h => by
      simp only [buildNamenodes] at h
      split at h
      · cases h
      · split at h
        · next hs' hrest =>
            cases h
            simpa using buildNamenodes_ok_length rest hs' hrest
        · cases h

theorem buildNamenodes_error_iff :
    ∀ (infos : List NamenodeInfo),
      (∃ e, buildNamenodes infos = .error e) ↔
        ∃ info ∈ infos, (StringSplit info.rpcAddr ':').length ≠ 2
  | [] => by simp [buildNamenodes]
  | info :: rest => by
      constructor
      · rintro ⟨e, h⟩
        simp only [buildNamenodes] at h
        split at h
        · next hbad => exact ⟨info, by simp, hbad⟩
        · split at h
          · cases h
          · next e' hrest =>
              obtain ⟨i, hmem, hi⟩ :=
                (buildNamenodes_error_iff rest).mp ⟨e', hrest⟩
              exact ⟨i, by simp [hmem], hi⟩
      · rintro ⟨i, hmem, hi⟩
        simp only [List.mem_cons] at hmem
        simp only [buildNamenodes]
        rcases hmem with rfl | hmem
        · simp [hi]
        · by_cases hgood : (StringSplit info.rpcAddr ':').length ≠ 2
          · simp [hgood]
          · simp only [hgood, if_false]
            obtain ⟨e, he⟩ :=
              (buildNamenodes_error_iff rest).mpr ⟨i, hmem, hi⟩
            rw [he]
            exact ⟨e, rfl⟩

/-- C7 counterexample: on the empty descriptor list the constructor takes
the `else` branch of `size == 1` and sets `enableNamenodeHA = true`
even though the list does not have more than one element, so
`haEnabled = (size > 1)` fails at size `0`. -/
theorem haEnabled_empty_pool_counterexample :
    mkNamenodeProxy [] 5 (fun n => n) = .ok ⟨[], 0, true, 5⟩ ∧
    ¬ ([] : List NamenodeInfo).length > 1 :=
  ⟨rfl, by decide⟩

/-- C7, amended: the constructor sets
`enableNamenodeHA = (size != 1)` — which coincides with `size > 1` for
the non-empty lists the interface requires — and when HA is disabled it
fixes `maxNamenodeHARetry` to `0` regardless of the configured value. -/
theorem mkNamenodeProxy_haEnabled (infos : List NamenodeInfo) (r : Nat)
    (rand : Nat → Nat) (s : ProxyState NamenodeImpl)
    (h : mkNamenodeProxy infos r rand = .ok s) :
    s.enableNamenodeHA = (infos.length != 1) ∧
    (1 ≤ infos.length → s.enableNamenodeHA = decide (infos.length > 1)) ∧
    (s.enableNamenodeHA = false → s.maxNamenodeHARetry = 0) := by
  simp only [mkNamenodeProxy] at h
  split at h
  · cases h
  · next hs hbuild =>
    cases h
    refine ⟨rfl, ?_, ?_⟩
    · intro h1
      by_cases hl : infos.length = 1
      · simp [hl]
      · have h2 : 1 < infos.length := by omega
        simp [hl, h2]
    · intro hf
      simp only [bne_eq_false_iff_eq] at hf
      simp [hf]

/-- Witness for C7 (amended) at a well-formed two-endpoint input. -/
theorem mkNamenodeProxy_haEnabled_witness :
    mkNamenodeProxy [⟨"a:1"⟩, ⟨"b:2"⟩] 5 (fun n => n) =
      .ok ⟨[⟨"a", "1"⟩, ⟨"b", "2"⟩], 0, true, 5⟩ ∧
    ((⟨[⟨"a", "1"⟩, ⟨"b", "2"⟩], 0, true, 5⟩ :
        ProxyState NamenodeImpl).enableNamenodeHA =
      ([(⟨"a:1"⟩ : NamenodeInfo), ⟨"b:2"⟩].length != 1) ∧
    (1 ≤ [(⟨"a:1"⟩ : NamenodeInfo), ⟨"b:2"⟩].length →
      (⟨[⟨"a", "1"⟩, ⟨"b", "2"⟩], 0, true, 5⟩ :
          ProxyState NamenodeImpl).enableNamenodeHA =
        decide ([(⟨"a:1"⟩ : NamenodeInfo), ⟨"b:2"⟩].length > 1)) ∧
    ((⟨[⟨"a", "1"⟩, ⟨"b", "2"⟩], 0, true, 5⟩ :
        ProxyState NamenodeImpl).enableNamenodeHA = false →
      (⟨[⟨"a", "1"⟩, ⟨"b", "2"⟩], 0, true, 5⟩ :
        ProxyState NamenodeImpl).maxNamenodeHARetry = 0)) :=
  ⟨rfl, mkNamenodeProxy_haEnabled [⟨"a:1"⟩, ⟨"b:2"⟩] 5 (fun n => n)
    ⟨[⟨"a", "1"⟩, ⟨"b", "2"⟩], 0, true, 5⟩ rfl⟩

/-- C10: construction fails with `InvalidParameter` exactly when some
descriptor's address does not split on `':'` into a host part and a
port part; on success one handle was built per descriptor and the
pool's sequence is a permutation of the built handles (so it has the
same size and membership as the descriptor list). -/
theorem mkNamenodeProxy_construction (infos : List NamenodeInfo) (r : Nat)
    (rand : Nat → Nat) :
    ((∃ e, mkNamenodeProxy infos r rand = .error e) ↔
       ∃ info ∈ infos, (StringSplit info.rpcAddr ':').length ≠ 2) ∧
    (∀ s, mkNamenodeProxy infos r rand = .ok s →
       ∃ hs, buildNamenodes infos = .ok hs ∧ hs.length = infos.length ∧
         s.namenodes.Perm hs) := by
  constructor
  · rw [← buildNamenodes_error_iff infos]
    simp only [mkNamenodeProxy]
    constructor
    · rintro ⟨e, h⟩
      split at h
      · next e' he' => exact ⟨e', he'⟩
      · cases h
    · rintro ⟨e, he⟩
      exact ⟨e, by rw [he]⟩
  · intro s h
    simp only [mkNamenodeProxy] at h
    split at h
    · cases h
    · next hs hbuild =>
      cases h
      exact ⟨hs, hbuild, buildNamenodes_ok_length infos hs hbuild,
        fisherYates_perm rand hs⟩

/-- Witness for C10: the error direction at a list with an unsplittable
address, and the success direction at a well-formed list. -/
theorem mkNamenodeProxy_construction_witness :
    (∃ e, mkNamenodeProxy [⟨"a:1"⟩, ⟨"bad"⟩] 0 (fun n => n) = .error e) ∧
    (∃ hs, buildNamenodes [⟨"a:1"⟩, ⟨"b:2"⟩] = .ok hs ∧
      hs.length = [(⟨"a:1"⟩ : NamenodeInfo), ⟨"b:2"⟩].length ∧
      (⟨[⟨"a", "1"⟩, ⟨"b", "2"⟩], 0, true, 0⟩ :
        ProxyState NamenodeImpl).namenodes.Perm hs) :=
  ⟨(mkNamenodeProxy_construction [⟨"a:1"⟩, ⟨"bad"⟩] 0 (fun n => n)).1.mpr
      ⟨⟨"bad"⟩, by decide, by decide⟩,
    (mkNamenodeProxy_construction [⟨"a:1"⟩, ⟨"b:2"⟩] 0 (fun n => n)).2
      ⟨[⟨"a", "1"⟩, ⟨"b", "2"⟩], 0, true, 0⟩ rfl⟩

end NamenodeProxy
